import Mathlib

/-!
Verification development for the `Projector` class of `src/projector.py`
(StyleGAN latent-space inversion by gradient descent).

The Python code is shallowly embedded as follows.

* Tensors holding the optimization variable are real-valued functions
  `Fin nl → δ → ℝ`: `nl` is the generator's latent-layer count
  (`g_ema.n_latent`) and `δ` indexes the latent dimensionality (512 in the
  source, kept abstract).  The `requires_grad` flag of a torch tensor is
  carried by the wrapper `GTensor`.
* External collaborators (the frozen generator `g_ema`, the perceptual loss
  `lpips`, `F.mse_loss`, `torch.randn_like`, the image resampler's pixel
  content and autograd) are abstract functions bundled in `Env`; the
  random samples consumed by `step` are explicit inputs.
* `torch.optim.Adam` is external library code; it is modelled concretely by
  `adamStep` (the standard Adam update with torch's default
  hyperparameters `betas=(0.9, 0.999)`, `eps=1e-8`, one parameter group
  holding the single latent tensor, in-place parameter update).
* Target images are carried as a pair of their shape (a `List ℕ`, as
  `tensor.shape`) and abstract pixel data, since `prepare_input` branches
  on the shape only.
* Python float arithmetic is embedded as exact real arithmetic
  (`np.cos` as `Real.cos`, `np.pi` as `Real.pi`, `** 0.5` on a nonnegative
  argument as `Real.sqrt`).
-/

noncomputable section

namespace Projector

/-- Torch default Adam first-moment decay (`betas[0]`). -/
def adamBeta1 : ℝ := 0.9

/-- Torch default Adam second-moment decay (`betas[1]`). -/
def adamBeta2 : ℝ := 0.999

/-- Torch default Adam epsilon. -/
def adamEps : ℝ := 1e-8

/-- Optimizer state of `torch.optim.Adam([self.latent_in], lr=...)`:
step count and first/second moment estimates, one entry per coordinate of
the single latent parameter tensor. -/
structure AdamState (δ : Type) (nl : ℕ) where
  stepCount : ℕ
  m : Fin nl → δ → ℝ
  v : Fin nl → δ → ℝ

/-- Fresh Adam state, as created in `__init__`
(`self.opt = torch.optim.Adam([self.latent_in], lr=self.initial_lr)`):
zero step count and zero moments over exactly the latent tensor's index
shape. -/
def adamInit {δ : Type} {nl : ℕ} : AdamState δ nl :=
  ⟨0, fun _ _ => 0, fun _ _ => 0⟩

/-- One `opt.step()` of Adam (external library code, modelled from its
documented algorithm with torch defaults): given the current state, the
learning rate of the single parameter group, the parameter tensor and its
gradient, returns the new state and the updated parameter tensor.  The
update is applied in place to the parameter passed in `p`. -/
def adamStep {δ : Type} {nl : ℕ} (st : AdamState δ nl) (lr : ℝ)
    (p g : Fin nl → δ → ℝ) : AdamState δ nl × (Fin nl → δ → ℝ) :=
  let tc := st.stepCount + 1
  let m : Fin nl → δ → ℝ := fun a b => adamBeta1 * st.m a b + (1 - adamBeta1) * g a b
  let v : Fin nl → δ → ℝ := fun a b => adamBeta2 * st.v a b + (1 - adamBeta2) * g a b ^ 2
  (⟨tc, m, v⟩,
    fun a b =>
      p a b - lr * (m a b / (1 - adamBeta1 ^ tc)) / (Real.sqrt (v a b / (1 - adamBeta2 ^ tc)) + adamEps))

/-- A torch tensor value together with its `requires_grad` flag. -/
structure GTensor (α : Type) where
  val : α
  requires_grad : Bool

/-- Embedding of `tensor.detach()`: same value, gradient tracking
disabled.  In torch the detached tensor shares storage with the original,
so in-place updates of the original remain visible through it; see
`latentViewRead`. -/
def detach {α : Type} (t : GTensor α) : GTensor α := ⟨t.val, false⟩

/-- External collaborators of the Projector, kept abstract: the frozen
generator, the perceptual and pixel losses, the resampler's and
`unsqueeze`'s action on pixel data, and autograd. -/
structure Env (δ : Type) (nl : ℕ) (Im : Type) where
  /-- Synthesis pass `self.g_ema([latent.unsqueeze(0)], input_is_latent=True,
  noise=self.g_ema.noises)[0]` on an already-mapped latent. -/
  forward : (Fin nl → δ → ℝ) → Im
  /-- Pixel-data part of `target_image.unsqueeze(0)`. -/
  unsqueezeIm : Im → Im
  /-- Pixel-data part of `utils.downsample_256`. -/
  downsampleIm : Im → Im
  /-- `self.lpips(img_gen, target).sum()`. -/
  lpips : Im → Im → ℝ
  /-- `F.mse_loss(img_gen, target)`. -/
  mse : Im → Im → ℝ
  /-- Autograd: gradient of the total step loss with respect to the tensor
  fed to the generator, evaluated at that tensor's value.  Arguments:
  `mse_strength`, the latent the generator was applied to, the target
  image data.  Since `latent_expr = latent_in + const`, this is also the
  gradient accumulated on `self.latent_in` by `self.loss.backward()`. -/
  gradLoss : ℝ → (Fin nl → δ → ℝ) → Im → (Fin nl → δ → ℝ)

/-- Instance state of a `Projector` object.  Fields initialized to `None`
in `__init__` (`latent_expr`, `target_images`, `loss`, `cur_step`) and the
attribute `img_gen` first created in `step` are `Option`s.  `verbose`
printing, the constant `n_mean_latent = 10000` (a parameter `N` of
`projector_init` here) and `regularize_noise_weight` (used only by
commented-out code) are not carried in the state. -/
structure PState (δ : Type) (nl : ℕ) (Im : Type) where
  num_steps : ℕ
  mse_strength : ℝ
  initial_lr : ℝ
  lr : ℝ
  initial_noise_factor : ℝ
  lr_rampdown_length : ℝ
  lr_rampup_length : ℝ
  noise_ramp_length : ℝ
  latent_expr : Option (Fin nl → δ → ℝ)
  target_image : Option (List ℕ × Im)
  loss : Option ℝ
  cur_step : Option ℕ
  img_gen : Option Im
  latent_mean : δ → ℝ
  latent_std : ℝ
  latent_in : GTensor (Fin nl → δ → ℝ)
  opt : AdamState δ nl

/-- Elementwise mean `latent_out.mean(0)` of the `N` mapped latent
samples. -/
def latentMean {δ : Type} (N : ℕ) (lout : Fin N → δ → ℝ) : δ → ℝ :=
  fun j => (∑ i, lout i j) / N

/-- The scalar spread
`((latent_out - self.latent_mean).pow(2).sum() / self.n_mean_latent) ** 0.5`:
the sum of squared deviations over all samples and all vector dimensions,
divided by the sample count `N` alone, under a square root. -/
def latentStd {δ : Type} [Fintype δ] (N : ℕ) (lout : Fin N → δ → ℝ) : ℝ :=
  Real.sqrt ((∑ i, ∑ j, (lout i j - latentMean N lout j) ^ 2) / N)

/-- The spread as claim C5 words it: root-mean-square deviation with the
squared-deviation sum divided by `N ×` dimensionality.  Stated from the
claim's words, for comparison with `latentStd` (which is translated from
the source). -/
def latentStdClaim {δ : Type} [Fintype δ] (N : ℕ) (lout : Fin N → δ → ℝ) : ℝ :=
  Real.sqrt ((∑ i, ∑ j, (lout i j - latentMean N lout j) ^ 2) / (N * Fintype.card δ))

/-- Progress fraction `t = self.cur_step / self.num_steps` of a step. -/
def tOf (i T : ℕ) : ℝ := (i : ℝ) / (T : ℝ)

/-- Learning-rate schedule of `update_lr` as a function of the progress
fraction `t`:
`lr_ramp = min(1.0, (1.0 - t) / lr_rampdown_length)`,
`lr_ramp = 0.5 - 0.5 * cos(lr_ramp * pi)`,
`lr_ramp = lr_ramp * min(1.0, t / lr_rampup_length)`,
result `initial_lr * lr_ramp` (stored into `self.lr` and into the
optimizer's parameter group). -/
def update_lr_val (il rd ru t : ℝ) : ℝ :=
  let lr_ramp := min 1 ((1 - t) / rd)
  let lr_ramp := 0.5 - 0.5 * Real.cos (lr_ramp * Real.pi)
  let lr_ramp := lr_ramp * min 1 (t / ru)
  il * lr_ramp

/-- Injected-noise magnitude of `step`:
`self.latent_std * self.initial_noise_factor * max(0.0, 1.0 - t / self.noise_ramp_length) ** 2`. -/
def noise_strength_val (lstd nf nr t : ℝ) : ℝ :=
  lstd * nf * max 0 (1 - t / nr) ^ 2

/-- The perturbed latent `self.latent_expr = self.latent_in + latent_noise`
of a step, with `latent_noise` the standard-normal sample `ν` scaled by the
noise magnitude. -/
def perturbedLatent {δ : Type} {nl : ℕ} {Im : Type} (s : PState δ nl Im)
    (ν : Fin nl → δ → ℝ) (t : ℝ) : Fin nl → δ → ℝ :=
  fun a b => s.latent_in.val a b +
    ν a b * noise_strength_val s.latent_std s.initial_noise_factor s.noise_ramp_length t

/-- Shape part of `utils.downsample_256` (repository code outside `src/`).
Modelled from the spec: the image resampler "downsamples an image tensor to
a fixed 256×256 spatial size", i.e. it replaces the two trailing spatial
dimensions by 256. -/
def downsample256_shape (s : List ℕ) : List ℕ :=
  s.take (s.length - 2) ++ [256, 256]

/-- Embedding of `Projector.prepare_input`, acting on a target image given
as (shape, pixel data): a 3-dimensional tensor is batch-promoted by
`unsqueeze(0)`; then the tensor is downsampled iff `shape[2] > 256`. -/
def prepare_input {δ : Type} {nl : ℕ} {Im : Type} (env : Env δ nl Im)
    (t : List ℕ × Im) : List ℕ × Im :=
  let t1 := if t.1.length = 3 then (1 :: t.1, env.unsqueezeIm t.2) else t
  if 256 < t1.1.getD 2 0 then (downsample256_shape t1.1, env.downsampleIm t1.2) else t1

/-- Embedding of `Projector.step`, one optimization step.  `ν` is the
standard-normal sample drawn by `torch.randn_like`.  The source
dereferences `self.cur_step` and `self.target_image`, which `run` always
sets before calling `step`; calling `step` with either still `None` raises
in Python and is modelled as the identity (unreachable from `run`). -/
def step {δ : Type} {nl : ℕ} {Im : Type} (env : Env δ nl Im)
    (ν : Fin nl → δ → ℝ) (s : PState δ nl Im) : PState δ nl Im :=
  match s.target_image, s.cur_step with
  | some tg, some i =>
    let t : ℝ := tOf i s.num_steps
    let noise_strength : ℝ :=
      noise_strength_val s.latent_std s.initial_noise_factor s.noise_ramp_length t
    let latent_noise : Fin nl → δ → ℝ := fun a b => ν a b * noise_strength
    let latent_expr : Fin nl → δ → ℝ := fun a b => s.latent_in.val a b + latent_noise a b
    let lr : ℝ := update_lr_val s.initial_lr s.lr_rampdown_length s.lr_rampup_length t
    let img_gen : Im := env.downsampleIm (env.forward latent_expr)
    let loss : ℝ := env.lpips img_gen tg.2 +
      (if s.mse_strength ≠ 0 then env.mse img_gen tg.2 * s.mse_strength else 0)
    let g : Fin nl → δ → ℝ := env.gradLoss s.mse_strength latent_expr tg.2
    let res := adamStep s.opt lr s.latent_in.val g
    { s with
      latent_expr := some latent_expr
      lr := lr
      img_gen := some img_gen
      loss := some loss
      opt := res.1
      latent_in := ⟨res.2, s.latent_in.requires_grad⟩ }
  | _, _ => s

/-- Embedding of `Projector.run`: stores the step count, prepares and
stores the target, then performs `num_steps` sequential steps, setting
`self.cur_step = i_step` before each.  `ns` supplies the per-step noise
samples. -/
def run {δ : Type} {nl : ℕ} {Im : Type} (env : Env δ nl Im)
    (ns : ℕ → Fin nl → δ → ℝ) (tgt : List ℕ × Im) (T : ℕ)
    (s : PState δ nl Im) : PState δ nl Im :=
  (List.range T).foldl
    (fun st i => step env (ns i) { st with cur_step := some i })
    { s with num_steps := T, target_image := some (prepare_input env tgt) }

/-- Embedding of `Projector.get_images`: synthesizes from the current
stored latent (not the perturbed `latent_expr`) and returns the image;
paired with the unchanged state to express that the method writes no
instance attribute. -/
def get_images {δ : Type} {nl : ℕ} {Im : Type} (env : Env δ nl Im)
    (s : PState δ nl Im) : PState δ nl Im × Im :=
  (s, env.forward s.latent_in.val)

/-- Embedding of `Projector.get_latents`: returns
`self.latent_in.detach()`, paired with the unchanged state. -/
def get_latents {δ : Type} {nl : ℕ} {Im : Type} (s : PState δ nl Im) :
    PState δ nl Im × GTensor (Fin nl → δ → ℝ) :=
  (s, detach s.latent_in)

/-- Value read through the tensor returned by `get_latents` once the
projector has evolved to state `s`.  `Tensor.detach` shares storage with
`self.latent_in` and Adam updates its parameter in place, so the read
yields the current stored latent, not the latent at the time of the
`get_latents` call. -/
def latentViewRead {δ : Type} {nl : ℕ} {Im : Type} (s : PState δ nl Im) :
    Fin nl → δ → ℝ :=
  s.latent_in.val

/-- Embedding of `Projector.__init__`.  `lout` stands for
`self.g_ema.style(noise_sample)`, the `N = n_mean_latent` mapped latent
samples drawn under the fixed seed (the mapping network is an external
collaborator, so the samples are an input here).  Without an explicit
initial latent, the stored latent is the estimated mean replicated once
per latent layer (`unsqueeze(0).repeat(n_latent, 1)`); either way
`requires_grad` is set to `True`, and a fresh Adam optimizer is created
over the single latent tensor. -/
def projector_init (δ : Type) [Fintype δ] (nl : ℕ) (Im : Type)
    (N : ℕ) (lout : Fin N → δ → ℝ)
    (num_steps : ℕ) (mse_strength il inf rd ru nr : ℝ)
    (initial_latent : Option (Fin nl → δ → ℝ)) : PState δ nl Im :=
  let lmean := latentMean N lout
  let lstd := latentStd N lout
  let lin : Fin nl → δ → ℝ :=
    match initial_latent with
    | none => fun _ j => lmean j
    | some l => l
  { num_steps := num_steps
    mse_strength := mse_strength
    initial_lr := il
    lr := il
    initial_noise_factor := inf
    lr_rampdown_length := rd
    lr_rampup_length := ru
    noise_ramp_length := nr
    latent_expr := none
    target_image := none
    loss := none
    cur_step := none
    img_gen := none
    latent_mean := lmean
    latent_std := lstd
    latent_in := ⟨lin, true⟩
    opt := adamInit }

/-! Concrete instances used by counterexamples and witnesses: a scalar
latent (`nl = 1`, one latent dimension) and trivial image data. -/

/-- Environment whose collaborators are trivial and whose autograd returns
a zero gradient. -/
def trivEnv : Env Unit 1 Unit :=
  { forward := fun _ => ()
    unsqueezeIm := fun u => u
    downsampleIm := fun u => u
    lpips := fun _ _ => 0
    mse := fun _ _ => 0
    gradLoss := fun _ _ _ => fun _ _ => 0 }

/-- Environment whose autograd returns the constant gradient 1. -/
def gradOneEnv : Env Unit 1 Unit :=
  { forward := fun _ => ()
    unsqueezeIm := fun u => u
    downsampleIm := fun u => u
    lpips := fun _ _ => 0
    mse := fun _ _ => 0
    gradLoss := fun _ _ _ => fun _ _ => 1 }

/-- A pre-batched 256×256 target, which `prepare_input` passes through
unchanged. -/
def cTgt : List ℕ × Unit := ([1, 3, 256, 256], ())

/-- Noise stream that always samples 0. -/
def zeroNoise : ℕ → Fin 1 → Unit → ℝ := fun _ _ _ => 0

/-- A noise sample of 1. -/
def oneNoise : Fin 1 → Unit → ℝ := fun _ _ => 1

/-- Projector state ready for a single `step` call: stored latent 0 with
fresh optimizer, unit latent spread and noise factor, default-style ramp
lengths, `cur_step = 0`, `num_steps = 1`, target set. -/
def cSa : PState Unit 1 Unit :=
  { num_steps := 1
    mse_strength := 0
    initial_lr := 1
    lr := 1
    initial_noise_factor := 1
    lr_rampdown_length := 1/4
    lr_rampup_length := 1/2
    noise_ramp_length := 1/2
    latent_expr := none
    target_image := some cTgt
    loss := none
    cur_step := some 0
    img_gen := none
    latent_mean := fun _ => 0
    latent_std := 1
    latent_in := ⟨fun _ _ => 0, true⟩
    opt := adamInit }

/-- Freshly constructed projector state (no target, no step counter yet),
used to exercise a full `run`. -/
def cS0 : PState Unit 1 Unit :=
  { cSa with target_image := none, cur_step := none }

/-- Two latent samples of two dimensions: `(0, 0)` and `(2, 0)`. -/
def cOut : Fin 2 → Fin 2 → ℝ := ![![0, 0], ![2, 0]]

/-- The all-zero single latent sample in one dimension. -/
def cZeroOut : Fin 1 → Fin 1 → ℝ := fun _ _ => 0

/-! Helper lemmas about `step` and `run`. -/

/-- A step never touches the step counter. -/
theorem step_cur_step {δ : Type} {nl : ℕ} {Im : Type} (env : Env δ nl Im)
    (ν : Fin nl → δ → ℝ) (s : PState δ nl Im) :
    (step env ν s).cur_step = s.cur_step := by
  rcases h1 : s.target_image with _ | tg <;> rcases h2 : s.cur_step with _ | i <;>
    simp [step, h1, h2]

/-- A step never touches the latent statistics computed at
construction. -/
theorem step_stats {δ : Type} {nl : ℕ} {Im : Type} (env : Env δ nl Im)
    (ν : Fin nl → δ → ℝ) (s : PState δ nl Im) :
    (step env ν s).latent_mean = s.latent_mean ∧
      (step env ν s).latent_std = s.latent_std := by
  rcases h1 : s.target_image with _ | tg <;> rcases h2 : s.cur_step with _ | i <;>
    simp [step, h1, h2]

/-- The loop body of `run`. -/
def runBody {δ : Type} {nl : ℕ} {Im : Type} (env : Env δ nl Im)
    (ns : ℕ → Fin nl → δ → ℝ) : PState δ nl Im → ℕ → PState δ nl Im :=
  fun st i => step env (ns i) { st with cur_step := some i }

theorem run_eq_foldl {δ : Type} {nl : ℕ} {Im : Type} (env : Env δ nl Im)
    (ns : ℕ → Fin nl → δ → ℝ) (tgt : List ℕ × Im) (T : ℕ) (s : PState δ nl Im) :
    run env ns tgt T s = (List.range T).foldl (runBody env ns)
      { s with num_steps := T, target_image := some (prepare_input env tgt) } := rfl

theorem foldl_stats {δ : Type} {nl : ℕ} {Im : Type} (env : Env δ nl Im)
    (ns : ℕ → Fin nl → δ → ℝ) :
    ∀ (l : List ℕ) (acc : PState δ nl Im),
      ((l.foldl (runBody env ns) acc).latent_mean = acc.latent_mean ∧
        (l.foldl (runBody env ns) acc).latent_std = acc.latent_std)
  | [], acc => ⟨rfl, rfl⟩
  | a :: l, acc => by
    have ih := foldl_stats env ns l (runBody env ns acc a)
    have hs := step_stats env (ns a) { acc with cur_step := some a }
    simp only [List.foldl_cons]
    exact ⟨ih.1.trans hs.1, ih.2.trans hs.2⟩

/-- A step reads none of `latent_expr`, `loss`, `img_gen`, `lr`: it
overwrites all four before any use, so its result does not depend on their
incoming values. -/
theorem step_frame {δ : Type} {nl : ℕ} {Im : Type} (env : Env δ nl Im)
    (ν : Fin nl → δ → ℝ) (s : PState δ nl Im) (tg : List ℕ × Im) (i : ℕ)
    (e : Option (Fin nl → δ → ℝ)) (l : Option ℝ) (g : Option Im) (r : ℝ)
    (htg : s.target_image = some tg) (hcs : s.cur_step = some i) :
    step env ν { s with latent_expr := e, loss := l, img_gen := g, lr := r } =
      step env ν s := by
  rcases s with ⟨ns', ms, il, lr0, inf, rd, ru, nr, le0, ti, lo, cs, ig, lm, ls, li, op⟩
  simp only at htg hcs
  subst htg; subst hcs
  simp [step]

/-- The result of `run` with at least one step does not depend on the
incoming target, step counter, step count, or the scratch fields
`latent_expr`, `loss`, `img_gen`, `lr`: `run` replaces the first three and
the first step overwrites the rest. -/
theorem run_frame {δ : Type} {nl : ℕ} {Im : Type} (env : Env δ nl Im)
    (ns : ℕ → Fin nl → δ → ℝ) (tgt : List ℕ × Im) (T' : ℕ) (s : PState δ nl Im)
    (x : Option (List ℕ × Im)) (c : Option ℕ) (n : ℕ)
    (e : Option (Fin nl → δ → ℝ)) (l : Option ℝ) (g : Option Im) (r : ℝ) :
    run env ns tgt (T' + 1)
        { s with target_image := x, cur_step := c, num_steps := n,
                 latent_expr := e, loss := l, img_gen := g, lr := r } =
      run env ns tgt (T' + 1) s := by
  rcases s with ⟨ns', ms, il, lr0, inf, rd, ru, nr, le0, ti, lo, cs, ig, lm, ls, li, op⟩
  rw [run_eq_foldl, run_eq_foldl, List.range_succ_eq_map]
  simp only [List.foldl_cons]
  congr 1

/-- After a run of `T' + 1` steps the step counter holds the last index
`T'`. -/
theorem run_cur_step {δ : Type} {nl : ℕ} {Im : Type} (env : Env δ nl Im)
    (ns : ℕ → Fin nl → δ → ℝ) (tgt : List ℕ × Im) (T' : ℕ) (s : PState δ nl Im) :
    (run env ns tgt (T' + 1) s).cur_step = some T' := by
  rw [run_eq_foldl, List.range_succ, List.foldl_append]
  simp [List.foldl_cons, List.foldl_nil, runBody, step_cur_step]

/-- Claim C1: for `num_steps = T ≥ 1` (written `T = T' + 1`), `run`
executes exactly `T` `step` invocations, folding over the index list
`[0, …, T−1]` in increasing order; every progress fraction
`t = i / T` lies in `[0, 1)`; the final step counter is `T − 1`; and
`num_steps = 1` performs exactly one `step` with step index 0 (whose
progress fraction is `0 / 1 = 0`, so no division by zero arises). -/
theorem C1_run_schedule {δ : Type} {nl : ℕ} {Im : Type} (env : Env δ nl Im)
    (ns : ℕ → Fin nl → δ → ℝ) (tgt : List ℕ × Im) (s : PState δ nl Im) (T' : ℕ) :
    run env ns tgt (T' + 1) s = (List.range (T' + 1)).foldl (runBody env ns)
        { s with num_steps := T' + 1, target_image := some (prepare_input env tgt) }
    ∧ (List.range (T' + 1)).length = T' + 1
    ∧ List.Pairwise (· < ·) (List.range (T' + 1))
    ∧ (∀ k : Fin (T' + 1), (k : ℕ) ∈ List.range (T' + 1))
    ∧ (∀ k : Fin (T' + 1), 0 ≤ tOf k (T' + 1) ∧ tOf k (T' + 1) < 1)
    ∧ (run env ns tgt (T' + 1) s).cur_step = some T'
    ∧ run env ns tgt 1 s = step env (ns 0)
        { s with num_steps := 1, target_image := some (prepare_input env tgt),
                 cur_step := some 0 } := by
  refine ⟨rfl, List.length_range _, List.pairwise_lt_range _, ?_, ?_,
    run_cur_step env ns tgt T' s, ?_⟩
  · intro k
    exact List.mem_range.mpr k.isLt
  · intro k
    have hT : (0 : ℝ) < ((T' + 1 : ℕ) : ℝ) := by positivity
    constructor
    · exact div_nonneg (Nat.cast_nonneg _) (Nat.cast_nonneg _)
    · rw [tOf, div_lt_one hT]
      exact_mod_cast k.isLt
  · rw [run_eq_foldl]
    rfl

/-- Claim C7: a `run` call replaces only the target image, the step count
and the step counter — the latent statistics survive any run unchanged; a
run that performs no step passes the stored latent and optimizer state
through untouched (no reinitialization, hence warm start from whatever the
previous run produced); and the result of a run with at least one step is
insensitive to whatever target, counter and scratch values the previous
run left behind. -/
theorem C7_run_warm_start {δ : Type} {nl : ℕ} {Im : Type} (env : Env δ nl Im)
    (ns : ℕ → Fin nl → δ → ℝ) (tgt : List ℕ × Im) (T : ℕ) (s : PState δ nl Im) :
    ((run env ns tgt T s).latent_mean = s.latent_mean ∧
      (run env ns tgt T s).latent_std = s.latent_std)
    ∧ run env ns tgt 0 s =
        { s with num_steps := 0, target_image := some (prepare_input env tgt) }
    ∧ (∀ (x : Option (List ℕ × Im)) (c : Option ℕ) (n : ℕ)
        (e : Option (Fin nl → δ → ℝ)) (l : Option ℝ) (g : Option Im) (r : ℝ)
        (T'' : ℕ),
        run env ns tgt (T'' + 1)
            { s with target_image := x, cur_step := c, num_steps := n,
                     latent_expr := e, loss := l, img_gen := g, lr := r } =
          run env ns tgt (T'' + 1) s) := by
  refine ⟨?_, rfl, ?_⟩
  · rw [run_eq_foldl]
    exact foldl_stats env ns (List.range T)
      { s with num_steps := T, target_image := some (prepare_input env tgt) }
  · intro x c n e l g r T''
    exact run_frame env ns tgt T'' s x c n e l g r

/-- Claim C2: with positive ramp lengths, the effective learning rate is
`initial_lr × (0.5 − 0.5·cos(min(1, (1−t)/lr_rampdown_length)·π)) ×
min(1, t/lr_rampup_length)`; it is 0 at `t = 0`, equals `initial_lr` once
both ramps saturate (`lr_rampup_length ≤ t ≤ 1 − lr_rampdown_length`),
decays to 0 as `t → 1`, and is exactly the value `step` stores in
`self.lr` and hands to the optimizer's parameter group. -/
theorem C2_lr_schedule (il rd ru : ℝ) (hrd : 0 < rd) (hru : 0 < ru) :
    (∀ t : ℝ, update_lr_val il rd ru t =
        il * (0.5 - 0.5 * Real.cos (min 1 ((1 - t) / rd) * Real.pi)) * min 1 (t / ru))
    ∧ update_lr_val il rd ru 0 = 0
    ∧ (∀ t : ℝ, ru ≤ t → t ≤ 1 - rd → update_lr_val il rd ru t = il)
    ∧ Filter.Tendsto (update_lr_val il rd ru) (nhds 1) (nhds 0)
    ∧ (∀ (δ : Type) (nl : ℕ) (Im : Type) (env : Env δ nl Im) (ν : Fin nl → δ → ℝ)
        (s : PState δ nl Im) (tg : List ℕ × Im) (i : ℕ),
        (step env ν { s with target_image := some tg, cur_step := some i }).lr =
          update_lr_val s.initial_lr s.lr_rampdown_length s.lr_rampup_length
            (tOf i s.num_steps)) := by
  refine ⟨?_, ?_, ?_, ?_, ?_⟩
  · intro t
    simp only [update_lr_val]
    ring
  · norm_num [update_lr_val, min_def]
  · intro t h1 h2
    have e1 : min 1 ((1 - t) / rd) = 1 := min_eq_left ((one_le_div hrd).mpr (by linarith))
    have e2 : min 1 (t / ru) = 1 := min_eq_left ((one_le_div hru).mpr h1)
    simp only [update_lr_val, e1, e2, one_mul, mul_one, Real.cos_pi]
    norm_num
  · have c1 : Continuous fun t : ℝ => min 1 ((1 - t) / rd) :=
      continuous_const.min ((continuous_const.sub continuous_id).div_const rd)
    have c2 : Continuous fun t : ℝ => min 1 (t / ru) :=
      continuous_const.min (continuous_id.div_const ru)
    have hc : Continuous fun t : ℝ =>
        il * ((0.5 - 0.5 * Real.cos (min 1 ((1 - t) / rd) * Real.pi)) * min 1 (t / ru)) :=
      continuous_const.mul
        ((continuous_const.sub
          (continuous_const.mul (Real.continuous_cos.comp (c1.mul continuous_const)))).mul c2)
    exact hc.tendsto' 1 0 (by norm_num [min_def, Real.cos_zero])
  · intro δ nl Im env ν s tg i
    rfl

/-- Witness for claim C2 at `initial_lr = 1`, `lr_rampdown_length = 1/4`,
`lr_rampup_length = 1/20`. -/
theorem C2_lr_schedule_witness :
    0 < (1/4 : ℝ) ∧ 0 < (1/20 : ℝ) ∧
    ((∀ t : ℝ, update_lr_val 1 (1/4) (1/20) t =
        1 * (0.5 - 0.5 * Real.cos (min 1 ((1 - t) / (1/4)) * Real.pi)) * min 1 (t / (1/20)))
    ∧ update_lr_val 1 (1/4) (1/20) 0 = 0
    ∧ (∀ t : ℝ, (1/20 : ℝ) ≤ t → t ≤ 1 - 1/4 → update_lr_val 1 (1/4) (1/20) t = 1)
    ∧ Filter.Tendsto (update_lr_val 1 (1/4) (1/20)) (nhds 1) (nhds 0)
    ∧ (∀ (δ : Type) (nl : ℕ) (Im : Type) (env : Env δ nl Im) (ν : Fin nl → δ → ℝ)
        (s : PState δ nl Im) (tg : List ℕ × Im) (i : ℕ),
        (step env ν { s with target_image := some tg, cur_step := some i }).lr =
          update_lr_val s.initial_lr s.lr_rampdown_length s.lr_rampup_length
            (tOf i s.num_steps))) :=
  ⟨by norm_num, by norm_num, C2_lr_schedule 1 (1/4) (1/20) (by norm_num) (by norm_num)⟩

/-- Claim C3: the injected-noise magnitude equals
`latent_std × initial_noise_factor × max(0, 1 − t/noise_ramp_length)²`, it
is monotonically non-increasing in `t` on `[0, ∞)` (hence on `[0, 1)`),
and it is exactly 0 for every `t ≥ noise_ramp_length`, assuming
nonnegative spread and noise factor and positive ramp length; it is
exactly the scale `step` multiplies the standard-normal sample by. -/
theorem C3_noise_schedule (lstd nf nr : ℝ) (h1 : 0 ≤ lstd) (h2 : 0 ≤ nf)
    (h3 : 0 < nr) :
    (∀ t : ℝ, noise_strength_val lstd nf nr t = lstd * nf * max 0 (1 - t / nr) ^ 2)
    ∧ (∀ t₁ t₂ : ℝ, 0 ≤ t₁ → t₁ ≤ t₂ →
        noise_strength_val lstd nf nr t₂ ≤ noise_strength_val lstd nf nr t₁)
    ∧ (∀ t : ℝ, nr ≤ t → noise_strength_val lstd nf nr t = 0) := by
  refine ⟨fun _ => rfl, ?_, ?_⟩
  · intro t₁ t₂ _ hle
    have hdiv : t₁ / nr ≤ t₂ / nr := by gcongr
    have hmax : max 0 (1 - t₂ / nr) ≤ max 0 (1 - t₁ / nr) :=
      max_le_max le_rfl (by linarith)
    have hsq : max 0 (1 - t₂ / nr) ^ 2 ≤ max 0 (1 - t₁ / nr) ^ 2 :=
      pow_le_pow_left₀ (le_max_left _ _) hmax 2
    exact mul_le_mul_of_nonneg_left hsq (mul_nonneg h1 h2)
  · intro t ht
    have hd : (1 : ℝ) ≤ t / nr := (one_le_div h3).mpr ht
    have hm : max 0 (1 - t / nr) = 0 := max_eq_left (by linarith)
    simp [noise_strength_val, hm]

/-- Witness for claim C3 at `latent_std = 1`, `initial_noise_factor = 1`,
`noise_ramp_length = 3/4`. -/
theorem C3_noise_schedule_witness :
    0 ≤ (1 : ℝ) ∧ 0 ≤ (1 : ℝ) ∧ 0 < (3/4 : ℝ) ∧
    ((∀ t : ℝ, noise_strength_val 1 1 (3/4) t = 1 * 1 * max 0 (1 - t / (3/4)) ^ 2)
    ∧ (∀ t₁ t₂ : ℝ, 0 ≤ t₁ → t₁ ≤ t₂ →
        noise_strength_val 1 1 (3/4) t₂ ≤ noise_strength_val 1 1 (3/4) t₁)
    ∧ (∀ t : ℝ, (3/4 : ℝ) ≤ t → noise_strength_val 1 1 (3/4) t = 0)) :=
  ⟨by norm_num, by norm_num, by norm_num,
    C3_noise_schedule 1 1 (3/4) (by norm_num) (by norm_num) (by norm_num)⟩

/-- Claim C4, amended: in a step, the perturbed latent
`latent_in + ν·noise_strength` — not the raw stored latent — is what the
generator forward pass and the gradient are computed at; but the optimizer
update is applied starting from the RAW stored latent `latent_in` with
that gradient, so the injected noise is NOT incorporated into the stored
latent.  In particular (third conjunct) with fresh zero moments and an
autograd that returns a zero gradient at the perturbed point, a step
leaves the stored latent exactly unchanged, discarding the perturbation
entirely. -/
theorem C4_step_dataflow {δ : Type} {nl : ℕ} {Im : Type} (env : Env δ nl Im)
    (ν : Fin nl → δ → ℝ) (s : PState δ nl Im) (tg : List ℕ × Im) (i : ℕ) :
    ((step env ν { s with target_image := some tg, cur_step := some i }).latent_expr =
        some (perturbedLatent s ν (tOf i s.num_steps)))
    ∧ ((step env ν { s with target_image := some tg, cur_step := some i }).img_gen =
        some (env.downsampleIm (env.forward (perturbedLatent s ν (tOf i s.num_steps)))))
    ∧ ((step env ν { s with target_image := some tg, cur_step := some i }).latent_in.val =
        (adamStep s.opt
          (update_lr_val s.initial_lr s.lr_rampdown_length s.lr_rampup_length
            (tOf i s.num_steps))
          s.latent_in.val
          (env.gradLoss s.mse_strength (perturbedLatent s ν (tOf i s.num_steps)) tg.2)).2)
    ∧ (∀ (s' : PState Unit 1 Unit) (ν' : Fin 1 → Unit → ℝ) (tg' : List ℕ × Unit)
        (i' : ℕ),
        (step trivEnv ν'
            { s' with opt := adamInit, target_image := some tg', cur_step := some i'
            }).latent_in.val =
          s'.latent_in.val) := by
  refine ⟨rfl, rfl, rfl, ?_⟩
  intro s' ν' tg' i'
  funext a b
  simp [step, adamStep, adamInit, trivEnv, adamBeta1, adamBeta2]

/-- Counterexample to claim C4 as stated: at a concrete state with stored
latent 0, unit noise sample and spread (so the perturbed latent is 1),
fresh optimizer and zero gradient, the step leaves the stored latent at 0,
whereas an optimizer update "applied starting from the perturbed value"
would store 1: the injected noise is not incorporated into the stored
latent. -/
theorem C4_counterexample :
    (step trivEnv oneNoise cSa).latent_in.val 0 () = 0
    ∧ perturbedLatent cSa oneNoise (tOf 0 1) 0 () = 1
    ∧ (adamStep cSa.opt (step trivEnv oneNoise cSa).lr
        (perturbedLatent cSa oneNoise (tOf 0 1))
        (trivEnv.gradLoss cSa.mse_strength (perturbedLatent cSa oneNoise (tOf 0 1))
          ())).2 0 () = 1
    ∧ (step trivEnv oneNoise cSa).latent_in.val 0 () ≠
      (adamStep cSa.opt (step trivEnv oneNoise cSa).lr
        (perturbedLatent cSa oneNoise (tOf 0 1))
        (trivEnv.gradLoss cSa.mse_strength (perturbedLatent cSa oneNoise (tOf 0 1))
          ())).2 0 () := by
  norm_num [step, adamStep, adamInit, trivEnv, cSa, cTgt, oneNoise, perturbedLatent,
    noise_strength_val, tOf, update_lr_val, adamBeta1, adamBeta2, adamEps, max_def,
    min_def]

/-- Claim C5, amended: the mean is the elementwise mean of the `N` mapped
latent samples, and the scalar spread is the square root of the
squared-deviation sum over all samples and dimensions divided by the
sample count `N` ALONE — not by `N ×` dimensionality; the source's spread
exceeds the claim's root-mean-square formula by the factor
`sqrt(dimensionality)`. -/
theorem C5_latent_stats {δ : Type} [Fintype δ] (N : ℕ) (lout : Fin N → δ → ℝ)
    (hN : 0 < N) (hd : 0 < Fintype.card δ) :
    latentMean N lout = (fun j => (∑ i, lout i j) / N)
    ∧ latentStd N lout =
        Real.sqrt ((∑ i, ∑ j, (lout i j - latentMean N lout j) ^ 2) / N)
    ∧ latentStd N lout = Real.sqrt (Fintype.card δ) * latentStdClaim N lout := by
  refine ⟨rfl, rfl, ?_⟩
  have hN' : ((N : ℝ)) ≠ 0 := Nat.cast_ne_zero.mpr hN.ne'
  have hd' : ((Fintype.card δ : ℝ)) ≠ 0 := Nat.cast_ne_zero.mpr hd.ne'
  rw [latentStd, latentStdClaim,
    ← Real.sqrt_mul (by positivity : (0 : ℝ) ≤ (Fintype.card δ : ℝ))]
  congr 1
  field_simp
  ring

/-- Witness for claim C5 (amended) at one sample of one dimension. -/
theorem C5_latent_stats_witness :
    0 < 1 ∧ 0 < Fintype.card (Fin 1) ∧
    (latentMean 1 cZeroOut = (fun j => (∑ i, cZeroOut i j) / ((1 : ℕ) : ℝ))
    ∧ latentStd 1 cZeroOut =
        Real.sqrt
          ((∑ i, ∑ j, (cZeroOut i j - latentMean 1 cZeroOut j) ^ 2) / ((1 : ℕ) : ℝ))
    ∧ latentStd 1 cZeroOut =
        Real.sqrt (Fintype.card (Fin 1)) * latentStdClaim 1 cZeroOut) :=
  ⟨Nat.one_pos, by simp, C5_latent_stats 1 cZeroOut Nat.one_pos (by simp)⟩

/-- Counterexample to claim C5 as stated: for the two 2-dimensional
samples `(0,0)` and `(2,0)`, the source's spread is `sqrt(2/2) = 1` while
the claim's formula `sqrt(sum / (N × dimensionality))` gives
`sqrt(2/4) ≠ 1`. -/
theorem C5_counterexample :
    latentStd 2 cOut = 1
    ∧ latentStdClaim 2 cOut = Real.sqrt (1/2)
    ∧ latentStd 2 cOut ≠ latentStdClaim 2 cOut := by
  have e1 : latentStd 2 cOut = 1 := by
    rw [latentStd]
    norm_num [latentMean, cOut, Fin.sum_univ_two, Real.sqrt_one]
  have e2 : latentStdClaim 2 cOut = Real.sqrt (1/2) := by
    rw [latentStdClaim]
    norm_num [latentMean, cOut, Fin.sum_univ_two, Fintype.card_fin]
  refine ⟨e1, e2, ?_⟩
  rw [e1, e2]
  intro h
  have h2 := Real.sqrt_eq_one.mp h.symm
  norm_num at h2

/-- Claim C6, amended: `prepare_input` batch-promotes a 3-dimensional
target and then downsamples to 256×256 if and only if `shape[2]` — the
HEIGHT of the batched tensor — exceeds 256; the width is not consulted. -/
theorem C6_prepare_input {δ : Type} {nl : ℕ} {Im : Type} (env : Env δ nl Im)
    (im : Im) :
    (∀ c h w : ℕ,
      prepare_input env ([c, h, w], im) =
        if 256 < h then ([1, c, 256, 256], env.downsampleIm (env.unsqueezeIm im))
        else ([1, c, h, w], env.unsqueezeIm im))
    ∧ (∀ b c h w : ℕ,
      prepare_input env ([b, c, h, w], im) =
        if 256 < h then ([b, c, 256, 256], env.downsampleIm im)
        else ([b, c, h, w], im)) := by
  constructor
  · intro c h w
    by_cases hh : 256 < h <;>
      simp [prepare_input, downsample256_shape, hh]
  · intro b c h w
    by_cases hh : 256 < h <;>
      simp [prepare_input, downsample256_shape, hh]

/-- Counterexample to claim C6 as stated: a 200×512 target has larger
spatial dimension 512 > 256, yet `prepare_input` only batch-promotes it
and does not downsample, because it consults `shape[2] = 200` alone. -/
theorem C6_counterexample :
    (prepare_input trivEnv ([3, 200, 512], ())).1 = [1, 3, 200, 512]
    ∧ 256 < max 200 512
    ∧ (prepare_input trivEnv ([3, 200, 512], ())).1 ≠ [1, 3, 256, 256] := by
  refine ⟨?_, by norm_num, ?_⟩ <;>
    simp [prepare_input, trivEnv]

/-- Claim C9: `get_images` synthesizes from the current STORED latent
(`self.latent_in`, with no injected noise perturbation) and, like
`get_latents`, is a pure read: the state component of either call is the
unchanged input state. -/
theorem C9_getters_pure {δ : Type} {nl : ℕ} {Im : Type} (env : Env δ nl Im)
    (s : PState δ nl Im) :
    (get_images env s).1 = s
    ∧ (get_images env s).2 = env.forward s.latent_in.val
    ∧ (get_latents s).1 = s
    ∧ (get_latents s).2.val = s.latent_in.val :=
  ⟨rfl, rfl, rfl, rfl⟩

/-- Claim C10: constructed without an explicit initial latent, the stored
latent is the estimated latent mean replicated once per generator latent
layer, with gradient tracking enabled, and the Adam optimizer starts fresh
(zero step count and moments) over exactly that single latent tensor's
index shape; with a supplied initial latent, that latent is stored
directly, again with gradient tracking enabled. -/
theorem C10_init (δ : Type) [Fintype δ] (nl : ℕ) (Im : Type) (N : ℕ)
    (lout : Fin N → δ → ℝ) (T : ℕ) (ms il inf rd ru nr : ℝ) :
    ((projector_init δ nl Im N lout T ms il inf rd ru nr none).latent_in.val =
        fun _ j => latentMean N lout j)
    ∧ (projector_init δ nl Im N lout T ms il inf rd ru nr
        none).latent_in.requires_grad = true
    ∧ (projector_init δ nl Im N lout T ms il inf rd ru nr none).opt = adamInit
    ∧ (projector_init δ nl Im N lout T ms il inf rd ru nr none).latent_mean =
        latentMean N lout
    ∧ (projector_init δ nl Im N lout T ms il inf rd ru nr none).latent_std =
        latentStd N lout
    ∧ (∀ l0 : Fin nl → δ → ℝ,
        (projector_init δ nl Im N lout T ms il inf rd ru nr
            (some l0)).latent_in.val = l0
        ∧ (projector_init δ nl Im N lout T ms il inf rd ru nr
            (some l0)).latent_in.requires_grad = true
        ∧ (projector_init δ nl Im N lout T ms il inf rd ru nr (some l0)).opt =
            adamInit) :=
  ⟨rfl, rfl, rfl, rfl, rfl, fun _ => ⟨rfl, rfl, rfl⟩⟩

/-- Claim C8, amended: `get_latents` returns `latent_in.detach()` — a
tensor with gradient tracking disabled whose value equals the stored
latent at call time, leaving the projector state untouched.  It is NOT an
independent snapshot: the detached tensor shares storage with
`self.latent_in`, which the optimizer updates in place, so its value
tracks subsequent optimization (see the counterexample). -/
theorem C8_get_latents_detached {δ : Type} {nl : ℕ} {Im : Type}
    (s : PState δ nl Im) :
    (get_latents s).2.requires_grad = false
    ∧ (get_latents s).2.val = s.latent_in.val
    ∧ (get_latents s).2 = detach s.latent_in
    ∧ (get_latents s).1 = s :=
  ⟨rfl, rfl, rfl, rfl⟩

set_option maxHeartbeats 1000000 in
/-- Counterexample to claim C8 as stated: from a fresh state with stored
latent 0, call `get_latents` (value 0), then run two steps with constant
unit gradient.  The second step applies a nonzero Adam update, so the
stored latent — and with it the value read through the storage-sharing
detached tensor — is no longer 0: the returned tensor is not a snapshot
that later `run` calls leave unchanged. -/
theorem C8_counterexample :
    (get_latents cS0).2.requires_grad = false
    ∧ (get_latents cS0).2.val 0 () = 0
    ∧ latentViewRead (run gradOneEnv zeroNoise cTgt 2 cS0) 0 () ≠
        (get_latents cS0).2.val 0 () := by
  have hr2 : List.range 2 = [0, 1] := by decide
  refine ⟨rfl, rfl, ?_⟩
  rw [run_eq_foldl, hr2]
  simp only [List.foldl_cons, List.foldl_nil, runBody]
  norm_num [step, adamStep, adamInit, gradOneEnv, cS0, cSa, cTgt, zeroNoise,
    prepare_input, noise_strength_val, tOf, update_lr_val, adamBeta1, adamBeta2,
    adamEps, latentViewRead, get_latents, detach, max_def, min_def, Real.cos_pi,
    Real.sqrt_one, Real.sqrt_zero]

end Projector

end
